import Mathlib

/-!
Verification of the `pages` crate: a single heap allocation holding a
caller-chosen header, an embedded descriptor (`PageDesc` in `layout.rs`,
`Book` in `lib.rs`) and a trailing array of item slots.

The development shallowly embeds the two implementations present in the
sources:
 * the modular one (`layout.rs` + `page_ref.rs` + `page.rs`):
   `withCapacity`, `pageRefNew`, `pageRefDrop`, accessors;
 * the standalone one in `lib.rs` (`PageLayout::for_capacity`,
   `PageLayout::static_prefix`, `Page::new`): `forCapacity`, `staticPre`,
   `libPageNew`.

Rust's `alloc::alloc::Layout` is modelled by `RLayout` with the standard
library's `extend` / `array` / `pad_to_align` arithmetic, machine
integers by `Nat` with explicit bounds (`isizeMax`, `u32Max`).  Page
memory is a byte-addressed store `Mem`; arbitrary header/item types are
represented by `TypeRep`, a size/alignment record together with an
encode/decode pair that round-trips, so theorems quantify over all
header and item types.  Allocation, header destruction and deallocation
are recorded as an explicit `Event` trace.
-/

namespace Pages

/-! ## Rust `Layout` model -/

/-- Model of `isize::MAX` on a 64-bit platform, the bound `Layout::from_size_align`
enforces on `size + (align - 1)`. -/
def isizeMax : Nat := 2 ^ 63 - 1

/-- Model of `u32::MAX`, the bound enforced by the `try_into::<u32>().unwrap()` on
the data offset. -/
def u32Max : Nat := 2 ^ 32 - 1

/-- Round `n` up to the next multiple of `a` (for `a > 0`); Rust's
`size + padding_needed_for(align)` for power-of-two alignments. -/
def alignTo (n a : Nat) : Nat := (n + a - 1) / a * a

/-- An allocator layout: size in bytes and alignment, as in
`alloc::alloc::Layout`. -/
structure RLayout where
  size : Nat
  align : Nat
deriving DecidableEq

/-- Model of `Layout::extend`: place `next` after `l` with padding to `next`'s
alignment; fails when the combined layout violates the `Layout`
invariant. Returns the combined layout and the field offset. -/
def RLayout.extend (l next : RLayout) : Option (RLayout × Nat) :=
  let newAlign := max l.align next.align
  let offset := alignTo l.size next.align
  let newSize := offset + next.size
  if newSize + (newAlign - 1) ≤ isizeMax then some (⟨newSize, newAlign⟩, offset) else none

/-- Model of `Layout::pad_to_align`: round the size up to a multiple of the
alignment. -/
def RLayout.padToAlign (l : RLayout) : RLayout := ⟨alignTo l.size l.align, l.align⟩

/-- Model of `Layout::array::<T>(n)`: `n` contiguous items (the element size of a
Rust type is already a multiple of its alignment, so the stride is the
size); fails on overflow of the `Layout` invariant. -/
def RLayout.array (l : RLayout) (n : Nat) : Option RLayout :=
  if n * l.size + (l.align - 1) ≤ isizeMax then some ⟨n * l.size, l.align⟩ else none

/-! ## Layout calculators -/

/-- Layout of the embedded descriptor (`PageDesc` in `layout.rs`, `Book`
in `lib.rs`): `{ items: u32, data: u32 }`, two `u32`s, so 8 bytes at
alignment 4. -/
def descLayout : RLayout := ⟨8, 4⟩

/-- The numeric part of a page layout: item capacity and byte offset of
the data array (`PageDesc` / `Book`). -/
structure PageDesc where
  items : Nat
  data : Nat
deriving DecidableEq

/-- Model of `PageLayout<H, T>` from `layout.rs`: descriptor plus allocator
layout. -/
structure PageLayoutM where
  desc : PageDesc
  layout : RLayout
deriving DecidableEq

/-- Byte offset of the `desc` field inside `PageHeader<H>` (and of the
`Book` in `lib.rs`, per `static_prefix`): the header size rounded up to
the descriptor's alignment.  It depends only on the header type. -/
def descOff (Hl : RLayout) : Nat := alignTo Hl.size 4

/-- Model of `Layout::new::<PageHeader<H>>()`: the composite of the header and the
descriptor, padded to its own alignment as every Rust struct layout is. -/
def pageHeaderLayout (Hl : RLayout) : Option RLayout :=
  (Hl.extend descLayout).map fun p => p.1.padToAlign

/-- Model of `PageLayout::<H, T>::with_capacity(items)` from `layout.rs`:
asserts `items > 0`, extends the `PageHeader<H>` layout with the item
array, pads to alignment, and records `{items, data}` with the data
offset checked to fit a `u32`. -/
def withCapacity (Hl Tl : RLayout) (items : Nat) : Option PageLayoutM :=
  if items = 0 then none else
  match pageHeaderLayout Hl with
  | none => none
  | some header =>
    match Tl.array items with
    | none => none
    | some arr =>
      match header.extend arr with
      | none => none
      | some (l, data) =>
        if data ≤ u32Max then some ⟨⟨items, data⟩, l.padToAlign⟩ else none

/-- Model of `PageLayout::for_capacity` result from `lib.rs`: offsets of the book
and of the data, and the allocation layout. -/
structure LibPageLayout where
  book : Nat
  data : Nat
  layout : RLayout
deriving DecidableEq

/-- Model of `PageLayout::static_prefix::<H>()` from `lib.rs`: the unpadded
composite of the header layout and the `Book` layout, plus the book's
offset. -/
def staticPre (Hl : RLayout) : Option (RLayout × Nat) := Hl.extend descLayout

/-- Model of `PageLayout::for_capacity::<H, T>(items)` from `lib.rs`.  Note: no
zero-capacity assertion is present in this variant. -/
def forCapacity (Hl Tl : RLayout) (items : Nat) : Option LibPageLayout :=
  match staticPre Hl with
  | none => none
  | some (pre, book) =>
    match Tl.array items with
    | none => none
    | some arr =>
      match pre.extend arr with
      | none => none
      | some (l, data) => some ⟨book, data, l.padToAlign⟩

/-! ## Byte-addressed memory model -/

/-- Byte-addressed memory: each address holds one byte value. -/
def Mem : Type := Nat → Nat

/-- Write the byte list `bs` starting at address `off`. -/
def writeBytes (m : Mem) (off : Nat) (bs : List Nat) : Mem :=
  fun a => if off ≤ a ∧ a < off + bs.length then bs.getD (a - off) 0 else m a

/-- Read `n` bytes starting at address `off`. -/
def readBytes (m : Mem) (off n : Nat) : List Nat :=
  (List.range n).map fun i => m (off + i)

/-! ## Value encodings -/

/-- Little-endian encoding of a `u32` into four bytes. -/
def encU32 (n : Nat) : List Nat :=
  [n % 256, n / 256 % 256, n / 65536 % 256, n / 16777216 % 256]

/-- Little-endian decoding of four bytes into a `u32`. -/
def decU32 (bs : List Nat) : Nat :=
  bs.getD 0 0 + 256 * bs.getD 1 0 + 65536 * bs.getD 2 0 + 16777216 * bs.getD 3 0

/-- In-memory encoding of the descriptor: two little-endian `u32`s,
`items` first (field order of `PageDesc` / `Book`). -/
def encDesc (d : PageDesc) : List Nat := encU32 d.items ++ encU32 d.data

/-- Decoding of the descriptor from eight bytes. -/
def decDesc (bs : List Nat) : PageDesc :=
  ⟨decU32 (bs.take 4), decU32 (bs.drop 4)⟩

/-- A representation of a Rust type: size and alignment, together with a
byte encoding that decoding inverts.  Theorems quantified over a
`TypeRep` hold for arbitrary header/item types. -/
structure TypeRep (α : Type) where
  size : Nat
  align : Nat
  enc : α → List Nat
  dec : List Nat → α
  enc_length : ∀ a, (enc a).length = size
  dec_enc : ∀ a, dec (enc a) = a

/-- The allocator layout of the represented type. -/
def TypeRep.rlayout {α : Type} (r : TypeRep α) : RLayout := ⟨r.size, r.align⟩

/-- The representation of Rust's `bool`: one byte, alignment one. -/
def boolRep : TypeRep Bool where
  size := 1
  align := 1
  enc b := [if b then 1 else 0]
  dec bs := bs.getD 0 0 == 1
  enc_length b := by cases b <;> rfl
  dec_enc b := by cases b <;> rfl

/-- The representation of a one-byte item type (`u8`). -/
def byteRep : TypeRep (Fin 256) where
  size := 1
  align := 1
  enc v := [v.val]
  dec bs := ⟨bs.getD 0 0 % 256, Nat.mod_lt _ (by norm_num)⟩
  enc_length v := rfl
  dec_enc v := Fin.ext (Nat.mod_eq_of_lt v.isLt)

/-- The representation of Rust's `u64`: eight bytes, alignment eight,
little-endian. -/
def u64Rep : TypeRep (Fin (2 ^ 64)) where
  size := 8
  align := 8
  enc v := [v.val % 256, v.val / 2 ^ 8 % 256, v.val / 2 ^ 16 % 256, v.val / 2 ^ 24 % 256,
            v.val / 2 ^ 32 % 256, v.val / 2 ^ 40 % 256, v.val / 2 ^ 48 % 256,
            v.val / 2 ^ 56 % 256]
  dec bs := ⟨(bs.getD 0 0 + 2 ^ 8 * bs.getD 1 0 + 2 ^ 16 * bs.getD 2 0 + 2 ^ 24 * bs.getD 3 0
      + 2 ^ 32 * bs.getD 4 0 + 2 ^ 40 * bs.getD 5 0 + 2 ^ 48 * bs.getD 6 0
      + 2 ^ 56 * bs.getD 7 0) % 2 ^ 64, Nat.mod_lt _ (by norm_num)⟩
  enc_length v := rfl
  dec_enc v := by
    apply Fin.ext
    show (v.val % 256 + 2 ^ 8 * (v.val / 2 ^ 8 % 256) + 2 ^ 16 * (v.val / 2 ^ 16 % 256)
      + 2 ^ 24 * (v.val / 2 ^ 24 % 256) + 2 ^ 32 * (v.val / 2 ^ 32 % 256)
      + 2 ^ 40 * (v.val / 2 ^ 40 % 256) + 2 ^ 48 * (v.val / 2 ^ 48 % 256)
      + 2 ^ 56 * (v.val / 2 ^ 56 % 256)) % 2 ^ 64 = v.val
    have hv := v.isLt
    omega

/-- A header type of size `2^40` bytes (e.g. a large fixed array), used
to exhibit layout overflow: its descriptor offset alone exceeds
`u32::MAX`. -/
def hugeRep : TypeRep Unit where
  size := 2 ^ 40
  align := 1
  enc _ := List.replicate (2 ^ 40) 0
  dec _ := ()
  enc_length _ := List.length_replicate _ _
  dec_enc _ := rfl

/-! ## Page references, events and page operations -/

/-- Model of `PageRef<H, T>`: a copyable handle holding only the allocation's
address (`NonNull<u8>`). -/
structure PageRefM where
  inner : Nat
deriving DecidableEq

/-- Model of `PartialEq for PageRef`: compare the underlying pointers. -/
def PageRefM.beq (a b : PageRefM) : Bool := a.inner == b.inner

/-- Model of `Clone`/`Copy` for `PageRef`: a bitwise copy of the pointer. -/
def PageRefM.clone (a : PageRefM) : PageRefM := ⟨a.inner⟩

/-- Observable allocator and destruction events. -/
inductive Event
  | alloc (addr : Nat) (l : RLayout)
  | destructHeader (addr : Nat)
  | dealloc (addr : Nat) (l : RLayout)
deriving DecidableEq

/-- Count of header-destructor runs in a trace. -/
def destructCount (evs : List Event) : Nat :=
  evs.countP fun e => match e with | .destructHeader _ => true | _ => false

/-- Count of deallocations in a trace. -/
def deallocCount (evs : List Event) : Nat :=
  evs.countP fun e => match e with | .dealloc _ _ => true | _ => false

/-- Count of allocations in a trace. -/
def allocCount (evs : List Event) : Nat :=
  evs.countP fun e => match e with | .alloc _ _ => true | _ => false

/-- Model of `PageRef::from_uninit(raw_ptr, header, layout)`: write the
`PageHeader { header, desc }` composite at offset 0 of the supplied
memory (the caller's header value at offset 0, the descriptor at its
field offset) and wrap the pointer. -/
def fromUninit {H : Type} (RH : TypeRep H) (m : Mem) (p : Nat) (h : H)
    (pl : PageLayoutM) : Mem × PageRefM :=
  (writeBytes (writeBytes m p (RH.enc h)) (p + descOff RH.rlayout) (encDesc pl.desc), ⟨p⟩)

/-- Model of `PageRef::desc()`: read the embedded descriptor from the page. -/
def readDesc {H : Type} (RH : TypeRep H) (m : Mem) (r : PageRefM) : PageDesc :=
  decDesc (readBytes m (r.inner + descOff RH.rlayout) 8)

/-- Model of `PageRef::capacity()`: the `items` field of the embedded descriptor. -/
def refCapacity {H : Type} (RH : TypeRep H) (m : Mem) (r : PageRefM) : Nat :=
  (readDesc RH m r).items

/-- Model of `PageRef::header()`: read the header value at offset 0. -/
def readHeader {H : Type} (RH : TypeRep H) (m : Mem) (r : PageRefM) : H :=
  RH.dec (readBytes m r.inner RH.size)

/-- Model of `PageRef::header_mut()` used as an lvalue: overwrite the header. -/
def writeHeader {H : Type} (RH : TypeRep H) (m : Mem) (r : PageRefM) (h : H) : Mem :=
  writeBytes m r.inner (RH.enc h)

/-- Model of `PageRef::data()`: base address of the item array, recovered from the
embedded descriptor's `data` offset. -/
def dataPtr {H : Type} (RH : TypeRep H) (m : Mem) (r : PageRefM) : Nat :=
  r.inner + (readDesc RH m r).data

/-- Read item slot `i` (`data()` pointer arithmetic plus a typed read). -/
def readSlot {H T : Type} (RH : TypeRep H) (RT : TypeRep T) (m : Mem) (r : PageRefM)
    (i : Nat) : T :=
  RT.dec (readBytes m (dataPtr RH m r + i * RT.size) RT.size)

/-- Write item slot `i` (`data()` pointer arithmetic plus a typed write). -/
def writeSlot {H T : Type} (RH : TypeRep H) (RT : TypeRep T) (m : Mem) (r : PageRefM)
    (i : Nat) (v : T) : Mem :=
  writeBytes m (dataPtr RH m r + i * RT.size) (RT.enc v)

/-- Model of `PageRef::layout()`: recompute the `PageLayout` from the stored
capacity. -/
def refLayout {H T : Type} (RH : TypeRep H) (RT : TypeRep T) (m : Mem) (r : PageRefM) :
    Option PageLayoutM :=
  withCapacity RH.rlayout RT.rlayout (readDesc RH m r).items

/-- Model of `PageRef::new(header, items)`: compute the layout (panicking — `none`
— before anything else on zero capacity or overflow), then allocate and
initialise via `from_uninit`.  `allocAddr` is the address the global
allocator returns; the code performs no null check, so even `0` (a null
return, i.e. allocator exhaustion) is wrapped and returned. -/
def pageRefNew {H T : Type} (RH : TypeRep H) (RT : TypeRep T) (m : Mem) (allocAddr : Nat)
    (h : H) (items : Nat) : Option (Mem × PageRefM × List Event) :=
  match withCapacity RH.rlayout RT.rlayout items with
  | none => none
  | some pl =>
    let mr := fromUninit RH m allocAddr h pl
    some (mr.1, mr.2, [Event.alloc allocAddr pl.layout])

/-- Model of `PageRef::drop(page)`: destruct the header in place, then deallocate
with the layout recomputed from the stored capacity.  Returns the event
trace; `none` models the panic of the recomputation (unreachable for
validly constructed pages). -/
def pageRefDrop {H T : Type} (RH : TypeRep H) (RT : TypeRep T) (m : Mem) (r : PageRefM) :
    Option (List Event) :=
  match withCapacity RH.rlayout RT.rlayout (readDesc RH m r).items with
  | none => none
  | some pl => some [Event.destructHeader r.inner, Event.dealloc r.inner pl.layout]

/-- Model of `Page<H, T>`: a `repr(transparent)` wrapper around `PageRef` with a
destructor. -/
structure PageM where
  ref : PageRefM
deriving DecidableEq

/-- Model of `Page::new(header, items)`: delegate to `PageRef::new`. -/
def pageNew {H T : Type} (RH : TypeRep H) (RT : TypeRep T) (m : Mem) (allocAddr : Nat)
    (h : H) (items : Nat) : Option (Mem × PageM × List Event) :=
  match pageRefNew RH RT m allocAddr h items with
  | none => none
  | some (m2, r, evs) => some (m2, ⟨r⟩, evs)

/-- Model of `impl Drop for Page`: delegate to `PageRef::drop`. -/
def pageDrop {H T : Type} (RH : TypeRep H) (RT : TypeRep T) (m : Mem) (p : PageM) :
    Option (List Event) :=
  pageRefDrop RH RT m p.ref

/-- Model of `Page::to_ref(self)`: take the inner reference and `forget` the owned
page, so the destructor emits no events.  Returns the reference together
with the (empty) trace of the conversion. -/
def pageToRef (p : PageM) : PageRefM × List Event :=
  (p.ref, [])

/-- Model of `Page::from_ref(page_ref)`: wrap the reference again. -/
def pageFromRef (r : PageRefM) : PageM := ⟨r⟩

/-- Model of `Page::new` from `lib.rs`: compute `for_capacity` and the `Book`
(including the `u32` conversion of the data offset) before allocating,
then write header and book.  As in `page_ref.rs`, the allocator's result
is not null-checked.  Note `for_capacity` performs no zero-capacity
assertion. -/
def libPageNew {H T : Type} (RH : TypeRep H) (RT : TypeRep T) (m : Mem) (allocAddr : Nat)
    (h : H) (items : Nat) : Option (Mem × PageRefM × List Event) :=
  match forCapacity RH.rlayout RT.rlayout items with
  | none => none
  | some pl =>
    if pl.data ≤ u32Max then
      let m1 := writeBytes m allocAddr (RH.enc h)
      let m2 := writeBytes m1 (allocAddr + pl.book) (encDesc ⟨items, pl.data⟩)
      some (m2, ⟨allocAddr⟩, [Event.alloc allocAddr pl.layout])
    else none

/-- A user mutation of a live page: overwrite the header, or overwrite
one item slot. -/
inductive PageOp (H T : Type)
  | putHeader (h : H)
  | putSlot (i : Nat) (v : T)

/-- Apply one mutation through the page's accessors. -/
def applyOp {H T : Type} (RH : TypeRep H) (RT : TypeRep T) (m : Mem) (r : PageRefM) :
    PageOp H T → Mem
  | .putHeader h => writeHeader RH m r h
  | .putSlot i v => writeSlot RH RT m r i v

/-- Apply a sequence of mutations, left to right. -/
def applyOps {H T : Type} (RH : TypeRep H) (RT : TypeRep T) (m : Mem) (r : PageRefM) :
    List (PageOp H T) → Mem
  | [] => m
  | op :: ops => applyOps RH RT (applyOp RH RT m r op) r ops

/-- A mutation is in bounds when every touched slot index is below the
capacity `c`. -/
def opInBounds {H T : Type} (c : Nat) : PageOp H T → Prop
  | .putHeader _ => True
  | .putSlot i _ => i < c
/-! ## Arithmetic facts about `alignTo` -/

theorem alignTo_dvd (n a : Nat) : a ∣ alignTo n a :=
  Dvd.intro_left _ rfl

theorem le_alignTo (n : Nat) {a : Nat} (ha : 0 < a) : n ≤ alignTo n a := by
  unfold alignTo
  rcases Nat.eq_zero_or_pos n with hn | hn
  · simp [hn]
  · have h1 : a * ((n + a - 1) / a) + (n + a - 1) % a = n + a - 1 :=
      Nat.div_add_mod _ _
    have h2 : (n + a - 1) % a < a := Nat.mod_lt _ ha
    have h3 : (n + a - 1) / a * a = a * ((n + a - 1) / a) := Nat.mul_comm _ _
    rw [h3]
    omega

theorem alignTo_eq_of_dvd {n a : Nat} (ha : 0 < a) (h : a ∣ n) : alignTo n a = n := by
  rcases h with ⟨k, rfl⟩
  unfold alignTo
  have h1 : a * k + a - 1 = a * k + (a - 1) := by omega
  rw [h1, Nat.mul_add_div ha, Nat.div_eq_of_lt (by omega), Nat.add_zero, Nat.mul_comm]

theorem alignTo_pos {n a : Nat} (ha : 0 < a) (hn : 0 < n) : 0 < alignTo n a :=
  Nat.lt_of_lt_of_le hn (le_alignTo n ha)

theorem alignTo_le_add {a : Nat} (n : Nat) (ha : 0 < a) : alignTo n a ≤ n + (a - 1) := by
  have := Nat.div_mul_le_self (n + a - 1) a
  unfold alignTo
  omega


theorem length_readBytes (m : Mem) (off n : Nat) : (readBytes m off n).length = n := by
  simp [readBytes]

theorem readBytes_writeBytes_same (m : Mem) (off : Nat) (bs : List Nat) :
    readBytes (writeBytes m off bs) off bs.length = bs := by
  apply List.ext_getElem
  · simp [readBytes]
  · intro i h1 h2
    simp only [readBytes, writeBytes, List.getElem_map, List.getElem_range]
    have hc : off ≤ off + i ∧ off + i < off + bs.length := by
      constructor <;> omega
    rw [if_pos hc, Nat.add_sub_cancel_left, List.getD_eq_getElem]

theorem readBytes_writeBytes_disjoint (m : Mem) (o1 o2 n : Nat) (bs : List Nat)
    (h : o2 + n ≤ o1 ∨ o1 + bs.length ≤ o2) :
    readBytes (writeBytes m o1 bs) o2 n = readBytes m o2 n := by
  simp only [readBytes, writeBytes]
  apply List.map_congr_left
  intro i hi
  rw [List.mem_range] at hi
  rw [if_neg]
  rcases h with h | h
  · intro hc
    omega
  · intro hc
    omega


theorem length_encU32 (n : Nat) : (encU32 n).length = 4 := rfl

theorem decU32_encU32 {n : Nat} (h : n < 2 ^ 32) : decU32 (encU32 n) = n := by
  have he : decU32 (encU32 n) =
      n % 256 + 256 * (n / 256 % 256) + 65536 * (n / 65536 % 256)
        + 16777216 * (n / 16777216 % 256) := rfl
  rw [he]
  omega

theorem length_encDesc (d : PageDesc) : (encDesc d).length = 8 := rfl

theorem decDesc_encDesc {d : PageDesc} (h1 : d.items < 2 ^ 32) (h2 : d.data < 2 ^ 32) :
    decDesc (encDesc d) = d := by
  have ht : (encDesc d).take 4 = encU32 d.items := rfl
  have hd : (encDesc d).drop 4 = encU32 d.data := rfl
  simp only [decDesc, ht, hd, decU32_encU32 h1, decU32_encU32 h2]

/-! ## Inversion lemmas for the layout calculators -/

theorem extend_inv {l next l2 : RLayout} {off : Nat}
    (h : l.extend next = some (l2, off)) :
    l2 = ⟨alignTo l.size next.align + next.size, max l.align next.align⟩ ∧
    off = alignTo l.size next.align ∧ l2.size + (l2.align - 1) ≤ isizeMax := by
  simp only [RLayout.extend] at h
  split at h
  · injection h with h2
    injection h2 with hl ho
    subst hl
    subst ho
    refine ⟨rfl, rfl, by assumption⟩
  · exact absurd h (by simp)

theorem array_inv {l a : RLayout} {n : Nat} (h : l.array n = some a) :
    a = ⟨n * l.size, l.align⟩ ∧ a.size + (a.align - 1) ≤ isizeMax := by
  unfold RLayout.array at h
  split at h
  · injection h with h2
    subst h2
    exact ⟨rfl, by assumption⟩
  · exact absurd h (by simp)

theorem pageHeaderLayout_inv {Hl header : RLayout}
    (h : pageHeaderLayout Hl = some header) :
    header = ⟨alignTo (alignTo Hl.size 4 + 8) (max Hl.align 4), max Hl.align 4⟩ := by
  unfold pageHeaderLayout at h
  cases he : Hl.extend descLayout with
  | none => rw [he] at h; exact absurd h (by simp)
  | some p =>
    obtain ⟨l2, off⟩ := p
    rw [he] at h
    obtain ⟨h1, h2, _⟩ := extend_inv he
    simp only [Option.map_some', Option.some_inj] at h
    subst h
    rw [h1]
    rfl

theorem withCapacity_inv {Hl Tl : RLayout} {c : Nat} {pl : PageLayoutM}
    (h : withCapacity Hl Tl c = some pl) :
    c ≠ 0 ∧ pl.desc.items = c ∧
    pl.desc.data = alignTo (alignTo (alignTo Hl.size 4 + 8) (max Hl.align 4)) Tl.align ∧
    pl.desc.data ≤ u32Max ∧
    pl.layout.align = max (max Hl.align 4) Tl.align ∧
    pl.layout.size = alignTo (pl.desc.data + c * Tl.size) (max (max Hl.align 4) Tl.align) ∧
    pl.layout.size ≤ isizeMax := by
  unfold withCapacity at h
  split at h
  · exact absurd h (by simp)
  next hc =>
  cases hh : pageHeaderLayout Hl with
  | none => rw [hh] at h; exact absurd h (by simp)
  | some header =>
  rw [hh] at h
  dsimp only at h
  cases ha : Tl.array c with
  | none => rw [ha] at h; exact absurd h (by simp)
  | some arr =>
  rw [ha] at h
  dsimp only at h
  cases hx : header.extend arr with
  | none => rw [hx] at h; exact absurd h (by simp)
  | some p =>
  obtain ⟨l, data⟩ := p
  rw [hx] at h
  dsimp only at h
  obtain ⟨hp1, hp2, hbound⟩ := extend_inv hx
  obtain ⟨harr, _⟩ := array_inv ha
  have hhdr := pageHeaderLayout_inv hh
  split at h
  next hdata =>
    injection h with h2
    subst h2
    subst hhdr
    subst harr
    subst hp1
    subst hp2
    refine ⟨hc, rfl, rfl, hdata, rfl, rfl, ?_⟩
    exact Nat.le_trans
      (alignTo_le_add _ (Nat.lt_of_lt_of_le (by norm_num)
        (Nat.le_trans (Nat.le_max_right Hl.align 4) (Nat.le_max_left _ _))))
      hbound
  · exact absurd h (by simp)

theorem forCapacity_inv {Hl Tl : RLayout} {c : Nat} {pl : LibPageLayout}
    (h : forCapacity Hl Tl c = some pl) :
    pl.book = alignTo Hl.size 4 ∧
    pl.data = alignTo (alignTo Hl.size 4 + 8) Tl.align ∧
    pl.layout.align = max (max Hl.align 4) Tl.align ∧
    pl.layout.size = alignTo (pl.data + c * Tl.size) (max (max Hl.align 4) Tl.align) := by
  unfold forCapacity staticPre at h
  cases he : Hl.extend descLayout with
  | none => rw [he] at h; exact absurd h (by simp)
  | some p0 =>
  obtain ⟨pre0, book⟩ := p0
  rw [he] at h
  dsimp only at h
  obtain ⟨hp01, hp02, _⟩ := extend_inv he
  cases ha : Tl.array c with
  | none => rw [ha] at h; exact absurd h (by simp)
  | some arr =>
  rw [ha] at h
  dsimp only at h
  obtain ⟨harr, _⟩ := array_inv ha
  cases hx : pre0.extend arr with
  | none => rw [hx] at h; exact absurd h (by simp)
  | some p =>
  obtain ⟨l, data⟩ := p
  rw [hx] at h
  dsimp only at h
  obtain ⟨hp1, hp2, _⟩ := extend_inv hx
  injection h with h2
  subst h2
  subst harr
  subst hp01
  subst hp02
  subst hp1
  subst hp2
  exact ⟨rfl, rfl, rfl, rfl⟩

/-! ## Claim C1: invariants of the computed layout -/

theorem maxAlign_pos {Hl Tl : RLayout} : 0 < max (max Hl.align 4) Tl.align :=
  Nat.lt_of_lt_of_le (by norm_num)
    (Nat.le_trans (Nat.le_max_right Hl.align 4) (Nat.le_max_left _ Tl.align))

/-- C1.  For every header type H, item type T and capacity c > 0, the
layout computed by the layout calculator (both `PageLayout::with_capacity`
in `layout.rs` and `PageLayout::for_capacity` in `lib.rs`) satisfies:
its size is a multiple of its alignment; its alignment is at least the
maximum of the alignments of H, the descriptor and T; its data-offset is
at least `size(H) + size(descriptor)`; its data-offset is a multiple of
the alignment of T; and `data-offset + c * size(T)` does not exceed its
size. -/
theorem layout_calculator_invariants (Hl Tl : RLayout) (c : Nat)
    (plA : PageLayoutM) (plB : LibPageLayout)
    (hHa : 0 < Hl.align) (hTa : 0 < Tl.align) (hc : 0 < c)
    (hA : withCapacity Hl Tl c = some plA)
    (hB : forCapacity Hl Tl c = some plB) :
    (plA.layout.align ∣ plA.layout.size ∧
     max (max Hl.align descLayout.align) Tl.align ≤ plA.layout.align ∧
     Hl.size + descLayout.size ≤ plA.desc.data ∧
     Tl.align ∣ plA.desc.data ∧
     plA.desc.data + c * Tl.size ≤ plA.layout.size) ∧
    (plB.layout.align ∣ plB.layout.size ∧
     max (max Hl.align descLayout.align) Tl.align ≤ plB.layout.align ∧
     Hl.size + descLayout.size ≤ plB.data ∧
     Tl.align ∣ plB.data ∧
     plB.data + c * Tl.size ≤ plB.layout.size) := by
  obtain ⟨hc0, hit, hdata, hdle, halign, hsize, _⟩ := withCapacity_inv hA
  obtain ⟨hbook, hdataB, halignB, hsizeB⟩ := forCapacity_inv hB
  have hpos : 0 < max (max Hl.align 4) Tl.align := maxAlign_pos
  have h4 : (0:Nat) < 4 := by norm_num
  have hstep1 : Hl.size + 8 ≤ alignTo Hl.size 4 + 8 := by
    have := le_alignTo Hl.size h4
    omega
  refine ⟨⟨?_, ?_, ?_, ?_, ?_⟩, ⟨?_, ?_, ?_, ?_, ?_⟩⟩
  · rw [hsize, halign]
    exact alignTo_dvd _ _
  · rw [halign]
    exact le_refl _
  · rw [hdata]
    exact Nat.le_trans hstep1 (Nat.le_trans
      (le_alignTo _ (Nat.lt_of_lt_of_le h4 (Nat.le_max_right Hl.align 4)))
      (le_alignTo _ hTa))
  · rw [hdata]
    exact alignTo_dvd _ _
  · rw [hsize]
    exact le_alignTo _ hpos
  · rw [hsizeB, halignB]
    exact alignTo_dvd _ _
  · rw [halignB]
    exact le_refl _
  · rw [hdataB]
    exact Nat.le_trans hstep1 (le_alignTo _ hTa)
  · rw [hdataB]
    exact alignTo_dvd _ _
  · rw [hsizeB]
    exact le_alignTo _ hpos

/-- Witness for C1 at H = `bool` (size 1, align 1), T = `u64` (size 8,
align 8), capacity 3. -/
theorem layout_calculator_invariants_witness :
    withCapacity ⟨1, 1⟩ ⟨8, 8⟩ 3 = some ⟨⟨3, 16⟩, ⟨40, 8⟩⟩ ∧
    forCapacity ⟨1, 1⟩ ⟨8, 8⟩ 3 = some ⟨4, 16, ⟨40, 8⟩⟩ ∧
    (((⟨⟨3, 16⟩, ⟨40, 8⟩⟩ : PageLayoutM).layout.align ∣
        (⟨⟨3, 16⟩, ⟨40, 8⟩⟩ : PageLayoutM).layout.size ∧
      max (max (1:Nat) descLayout.align) 8 ≤
        (⟨⟨3, 16⟩, ⟨40, 8⟩⟩ : PageLayoutM).layout.align ∧
      1 + descLayout.size ≤ (⟨⟨3, 16⟩, ⟨40, 8⟩⟩ : PageLayoutM).desc.data ∧
      (8:Nat) ∣ (⟨⟨3, 16⟩, ⟨40, 8⟩⟩ : PageLayoutM).desc.data ∧
      (⟨⟨3, 16⟩, ⟨40, 8⟩⟩ : PageLayoutM).desc.data + 3 * 8 ≤
        (⟨⟨3, 16⟩, ⟨40, 8⟩⟩ : PageLayoutM).layout.size) ∧
     ((⟨4, 16, ⟨40, 8⟩⟩ : LibPageLayout).layout.align ∣
        (⟨4, 16, ⟨40, 8⟩⟩ : LibPageLayout).layout.size ∧
      max (max (1:Nat) descLayout.align) 8 ≤
        (⟨4, 16, ⟨40, 8⟩⟩ : LibPageLayout).layout.align ∧
      1 + descLayout.size ≤ (⟨4, 16, ⟨40, 8⟩⟩ : LibPageLayout).data ∧
      (8:Nat) ∣ (⟨4, 16, ⟨40, 8⟩⟩ : LibPageLayout).data ∧
      (⟨4, 16, ⟨40, 8⟩⟩ : LibPageLayout).data + 3 * 8 ≤
        (⟨4, 16, ⟨40, 8⟩⟩ : LibPageLayout).layout.size)) :=
  ⟨by decide, by decide,
   layout_calculator_invariants ⟨1, 1⟩ ⟨8, 8⟩ 3 ⟨⟨3, 16⟩, ⟨40, 8⟩⟩ ⟨4, 16, ⟨40, 8⟩⟩
     (by decide) (by decide) (by decide) (by decide) (by decide)⟩


/-! ## Reads on a freshly initialised page -/

theorem pageRefNew_inv {H T : Type} (RH : TypeRep H) (RT : TypeRep T) {m m2 : Mem} {addr : Nat}
    {h0 : H} {c : Nat} {r : PageRefM} {evs : List Event}
    (h : pageRefNew RH RT m addr h0 c = some (m2, r, evs)) :
    ∃ pl, withCapacity RH.rlayout RT.rlayout c = some pl ∧
      m2 = writeBytes (writeBytes m addr (RH.enc h0)) (addr + descOff RH.rlayout)
             (encDesc pl.desc) ∧
      r = ⟨addr⟩ ∧ evs = [Event.alloc addr pl.layout] := by
  unfold pageRefNew at h
  cases hw : withCapacity RH.rlayout RT.rlayout c with
  | none => rw [hw] at h; exact absurd h (by simp)
  | some pl =>
    rw [hw] at h
    dsimp only [fromUninit] at h
    injection h with h1
    injection h1 with hm h2
    injection h2 with hr hevs
    exact ⟨pl, rfl, hm.symm, hr.symm, hevs.symm⟩

/-- Reading back the descriptor of a just-initialised page. -/
theorem readDesc_init {H : Type} (RH : TypeRep H) (m : Mem) (p : Nat) (h0 : H) (d : PageDesc)
    (h1 : d.items < 2 ^ 32) (h2 : d.data < 2 ^ 32) :
    readDesc RH
      (writeBytes (writeBytes m p (RH.enc h0)) (p + descOff RH.rlayout) (encDesc d))
      ⟨p⟩ = d := by
  unfold readDesc
  have hlen : (8 : Nat) = (encDesc d).length := (length_encDesc d).symm
  rw [hlen, readBytes_writeBytes_same]
  exact decDesc_encDesc h1 h2

/-- Reading back the header of a just-initialised page: the descriptor
write lands at or after `descOff ≥ size(H)` and leaves the header bytes
alone. -/
theorem readHeader_init {H : Type} (RH : TypeRep H) (m : Mem) (p : Nat) (h0 : H) (d : PageDesc) :
    readHeader RH
      (writeBytes (writeBytes m p (RH.enc h0)) (p + descOff RH.rlayout) (encDesc d))
      ⟨p⟩ = h0 := by
  unfold readHeader
  rw [readBytes_writeBytes_disjoint _ _ _ _ _
    (Or.inl (by
      have h1 := le_alignTo RH.rlayout.size (show (0:Nat) < 4 by norm_num)
      have h2 : RH.rlayout.size = RH.size := rfl
      simp only [descOff]
      omega))]
  have hlen : RH.size = (RH.enc h0).length := (RH.enc_length h0).symm
  rw [hlen, readBytes_writeBytes_same]
  exact RH.dec_enc h0

/-! ## Claim C2: construction round-trip -/

/-- C2.  For every header type H, item type T, header value `h0` and
capacity `c > 0` (with `c` a `u32`), a successful `Page::new(h0, c)`
yields a page on which `capacity()` returns `c` and `header()` returns a
value equal to `h0`. -/
theorem page_new_roundtrip {H T : Type} (RH : TypeRep H) (RT : TypeRep T)
    (m m2 : Mem) (addr : Nat) (h0 : H) (c : Nat) (p : PageM) (evs : List Event)
    (hc32 : c < 2 ^ 32)
    (hnew : pageNew RH RT m addr h0 c = some (m2, p, evs)) :
    refCapacity RH m2 p.ref = c ∧ readHeader RH m2 p.ref = h0 := by
  unfold pageNew at hnew
  cases hr : pageRefNew RH RT m addr h0 c with
  | none => rw [hr] at hnew; exact absurd hnew (by simp)
  | some t =>
    obtain ⟨m3, r, evs3⟩ := t
    rw [hr] at hnew
    dsimp only at hnew
    injection hnew with h1
    injection h1 with hm h2
    injection h2 with hp hevs
    obtain ⟨pl, hw, hm3, hrr, _⟩ := pageRefNew_inv RH RT hr
    obtain ⟨_, hit, _, hdle, _, _, _⟩ := withCapacity_inv hw
    subst hm
    subst hp
    subst hm3
    subst hrr
    constructor
    · show (readDesc RH _ _).items = c
      rw [readDesc_init RH m addr h0 pl.desc (by omega)
        (by have : u32Max = 2 ^ 32 - 1 := rfl; omega)]
      exact hit
    · exact readHeader_init RH m addr h0 pl.desc


/-- Witness for C2: H = `bool`, T = `u8`, header `true`, capacity 2,
allocation address 1000, zeroed initial memory. -/
theorem page_new_roundtrip_witness :
    refCapacity boolRep
      (writeBytes (writeBytes (fun _ => 0) 1000 (boolRep.enc true))
        (1000 + descOff boolRep.rlayout) (encDesc ⟨2, 12⟩))
      (⟨1000⟩ : PageRefM) = 2 ∧
    readHeader boolRep
      (writeBytes (writeBytes (fun _ => 0) 1000 (boolRep.enc true))
        (1000 + descOff boolRep.rlayout) (encDesc ⟨2, 12⟩))
      (⟨1000⟩ : PageRefM) = true :=
  page_new_roundtrip boolRep byteRep (fun _ => 0)
    (writeBytes (writeBytes (fun _ => 0) 1000 (boolRep.enc true))
      (1000 + descOff boolRep.rlayout) (encDesc ⟨2, 12⟩))
    1000 true 2 ⟨⟨1000⟩⟩ [Event.alloc 1000 ⟨16, 4⟩] (by norm_num) rfl

/-! ## Claim C3: exactly-once destruction on drop -/

theorem pageNew_inv {H T : Type} (RH : TypeRep H) (RT : TypeRep T) {m m2 : Mem}
    {addr : Nat} {h0 : H} {c : Nat} {p : PageM} {evs : List Event}
    (h : pageNew RH RT m addr h0 c = some (m2, p, evs)) :
    ∃ pl, withCapacity RH.rlayout RT.rlayout c = some pl ∧
      m2 = writeBytes (writeBytes m addr (RH.enc h0)) (addr + descOff RH.rlayout)
             (encDesc pl.desc) ∧
      p = ⟨⟨addr⟩⟩ ∧ evs = [Event.alloc addr pl.layout] := by
  unfold pageNew at h
  cases hr : pageRefNew RH RT m addr h0 c with
  | none => rw [hr] at h; exact absurd h (by simp)
  | some t =>
    obtain ⟨m3, r, evs3⟩ := t
    rw [hr] at h
    dsimp only at h
    injection h with h1
    injection h1 with hm h2
    injection h2 with hp hevs
    obtain ⟨pl, hw, hm3, hrr, hevs3⟩ := pageRefNew_inv RH RT hr
    subst hm
    subst hp
    subst hevs
    subst hm3
    subst hrr
    exact ⟨pl, hw, rfl, rfl, hevs3⟩

/-- C3.  Constructing a page and then dropping it (through the owned
page's destructor `pageDrop`, which is definitionally `PageRef::drop` on
the inner reference) runs the header destructor in place exactly once and
deallocates exactly once; the deallocation uses the layout recomputed by
the layout calculator from the capacity stored in the embedded
descriptor (which still equals the construction capacity), and the
header destructor event precedes the deallocation event. -/
theorem page_drop_exactly_once {H T : Type} (RH : TypeRep H) (RT : TypeRep T)
    (m m2 : Mem) (addr : Nat) (h0 : H) (c : Nat) (p : PageM) (evs : List Event)
    (hc32 : c < 2 ^ 32)
    (hnew : pageNew RH RT m addr h0 c = some (m2, p, evs)) :
    refCapacity RH m2 p.ref = c ∧
    ∃ pl evd, withCapacity RH.rlayout RT.rlayout c = some pl ∧
      pageDrop RH RT m2 p = some evd ∧
      pageRefDrop RH RT m2 p.ref = some evd ∧
      evd = [Event.destructHeader p.ref.inner, Event.dealloc p.ref.inner pl.layout] ∧
      destructCount evd = 1 ∧ deallocCount evd = 1 := by
  obtain ⟨pl, hw, hm2, hp, _⟩ := pageNew_inv RH RT hnew
  obtain ⟨_, hit, _, hdle, _, _, _⟩ := withCapacity_inv hw
  subst hm2
  subst hp
  have hrd : readDesc RH
      (writeBytes (writeBytes m addr (RH.enc h0)) (addr + descOff RH.rlayout)
        (encDesc pl.desc)) ⟨addr⟩ = pl.desc :=
    readDesc_init RH m addr h0 pl.desc (by omega)
      (by have : u32Max = 2 ^ 32 - 1 := rfl; omega)
  have hdropEq : pageDrop RH RT
      (writeBytes (writeBytes m addr (RH.enc h0)) (addr + descOff RH.rlayout)
        (encDesc pl.desc)) ⟨⟨addr⟩⟩ =
      some [Event.destructHeader addr, Event.dealloc addr pl.layout] := by
    unfold pageDrop pageRefDrop
    rw [show (⟨⟨addr⟩⟩ : PageM).ref = ⟨addr⟩ from rfl, hrd, hit, hw]
  refine ⟨?_, pl, [Event.destructHeader addr, Event.dealloc addr pl.layout],
    hw, hdropEq, hdropEq, rfl, rfl, rfl⟩
  show (readDesc RH _ _).items = c
  rw [show (⟨⟨addr⟩⟩ : PageM).ref = ⟨addr⟩ from rfl, hrd]
  exact hit

/-- Witness for C3 at H = `bool`, T = `u8`, capacity 2, address 1000. -/
theorem page_drop_exactly_once_witness :
    refCapacity boolRep
      (writeBytes (writeBytes (fun _ => 0) 1000 (boolRep.enc true))
        (1000 + descOff boolRep.rlayout) (encDesc ⟨2, 12⟩))
      (⟨⟨1000⟩⟩ : PageM).ref = 2 ∧
    ∃ pl evd, withCapacity boolRep.rlayout byteRep.rlayout 2 = some pl ∧
      pageDrop boolRep byteRep
        (writeBytes (writeBytes (fun _ => 0) 1000 (boolRep.enc true))
          (1000 + descOff boolRep.rlayout) (encDesc ⟨2, 12⟩)) ⟨⟨1000⟩⟩ = some evd ∧
      pageRefDrop boolRep byteRep
        (writeBytes (writeBytes (fun _ => 0) 1000 (boolRep.enc true))
          (1000 + descOff boolRep.rlayout) (encDesc ⟨2, 12⟩))
        (⟨⟨1000⟩⟩ : PageM).ref = some evd ∧
      evd = [Event.destructHeader (⟨⟨1000⟩⟩ : PageM).ref.inner,
             Event.dealloc (⟨⟨1000⟩⟩ : PageM).ref.inner pl.layout] ∧
      destructCount evd = 1 ∧ deallocCount evd = 1 :=
  page_drop_exactly_once boolRep byteRep (fun _ => 0)
    (writeBytes (writeBytes (fun _ => 0) 1000 (boolRep.enc true))
      (1000 + descOff boolRep.rlayout) (encDesc ⟨2, 12⟩))
    1000 true 2 ⟨⟨1000⟩⟩ [Event.alloc 1000 ⟨16, 4⟩] (by norm_num) rfl

/-! ## Claim C5: `to_ref` / `from_ref` round trip -/

/-- C5.  For a live owned page, `to_ref` returns the raw reference to the
same allocation while emitting no destructor or deallocation events
(`forget` disarms the owned destructor), and `from_ref` of that reference
is an owned page over the same allocation whose `capacity()` and
`header()` still return the construction values; the round trip destructs
and deallocates nothing. -/
theorem to_ref_from_ref_roundtrip {H T : Type} (RH : TypeRep H) (RT : TypeRep T)
    (m m2 : Mem) (addr : Nat) (h0 : H) (c : Nat) (p : PageM) (evs : List Event)
    (hc32 : c < 2 ^ 32)
    (hnew : pageNew RH RT m addr h0 c = some (m2, p, evs)) :
    (pageToRef p).1 = p.ref ∧
    destructCount (pageToRef p).2 = 0 ∧
    deallocCount (pageToRef p).2 = 0 ∧
    pageFromRef (pageToRef p).1 = p ∧
    refCapacity RH m2 (pageFromRef (pageToRef p).1).ref = c ∧
    readHeader RH m2 (pageFromRef (pageToRef p).1).ref = h0 := by
  obtain ⟨pl, hw, hm2, hp, _⟩ := pageNew_inv RH RT hnew
  obtain ⟨_, hit, _, hdle, _, _, _⟩ := withCapacity_inv hw
  subst hm2
  subst hp
  refine ⟨rfl, rfl, rfl, rfl, ?_, ?_⟩
  · show (readDesc RH _ _).items = c
    rw [show (pageFromRef (pageToRef (⟨⟨addr⟩⟩ : PageM)).1).ref = ⟨addr⟩ from rfl,
      readDesc_init RH m addr h0 pl.desc (by omega)
        (by have : u32Max = 2 ^ 32 - 1 := rfl; omega)]
    exact hit
  · exact readHeader_init RH m addr h0 pl.desc

/-- Witness for C5 at H = `bool`, T = `u8`, capacity 2, address 1000. -/
theorem to_ref_from_ref_roundtrip_witness :
    (pageToRef (⟨⟨1000⟩⟩ : PageM)).1 = (⟨⟨1000⟩⟩ : PageM).ref ∧
    destructCount (pageToRef (⟨⟨1000⟩⟩ : PageM)).2 = 0 ∧
    deallocCount (pageToRef (⟨⟨1000⟩⟩ : PageM)).2 = 0 ∧
    pageFromRef (pageToRef (⟨⟨1000⟩⟩ : PageM)).1 = (⟨⟨1000⟩⟩ : PageM) ∧
    refCapacity boolRep
      (writeBytes (writeBytes (fun _ => 0) 1000 (boolRep.enc true))
        (1000 + descOff boolRep.rlayout) (encDesc ⟨2, 12⟩))
      (pageFromRef (pageToRef (⟨⟨1000⟩⟩ : PageM)).1).ref = 2 ∧
    readHeader boolRep
      (writeBytes (writeBytes (fun _ => 0) 1000 (boolRep.enc true))
        (1000 + descOff boolRep.rlayout) (encDesc ⟨2, 12⟩))
      (pageFromRef (pageToRef (⟨⟨1000⟩⟩ : PageM)).1).ref = true :=
  to_ref_from_ref_roundtrip boolRep byteRep (fun _ => 0)
    (writeBytes (writeBytes (fun _ => 0) 1000 (boolRep.enc true))
      (1000 + descOff boolRep.rlayout) (encDesc ⟨2, 12⟩))
    1000 true 2 ⟨⟨1000⟩⟩ [Event.alloc 1000 ⟨16, 4⟩] (by norm_num) rfl

/-! ## Claim C4: zero-capacity behaviour of the two implementations -/

/-- C4 evidence.  The `layout.rs` calculator `with_capacity` aborts on
capacity 0 for every header/item layout, and `PageRef::new` (hence
`Page::new` of `page.rs`) aborts with it; but the standalone `Page::new`
of `lib.rs` performs no zero-capacity check: at H = `bool`, T = `u8` it
allocates, initialises and returns a usable page whose `capacity()`
reads back 0. -/
theorem zero_capacity_divergence :
    (∀ Hl Tl : RLayout, withCapacity Hl Tl 0 = none) ∧
    (∀ (m : Mem) (addr : Nat) (h : Bool),
      pageRefNew boolRep byteRep m addr h 0 = none ∧
      pageNew boolRep byteRep m addr h 0 = none) ∧
    ∃ m2 r evs, libPageNew boolRep byteRep (fun _ => 0) 1000 true 0 = some (m2, r, evs) ∧
      refCapacity boolRep m2 r = 0 := by
  refine ⟨fun Hl Tl => rfl, fun m addr h => ⟨rfl, rfl⟩,
    writeBytes (writeBytes (fun _ => 0) 1000 (boolRep.enc true)) 1004 (encDesc ⟨0, 12⟩),
    ⟨1000⟩, [Event.alloc 1000 ⟨12, 4⟩], rfl, rfl⟩

/-! ## Claim C6: allocator exhaustion is not checked -/

/-- C6 evidence.  When the allocator fails and returns null (modelled by
`allocAddr = 0`), both `PageRef::new` and the `lib.rs` `Page::new`
proceed without any null check: they write the header composite through
the returned pointer and hand back a reference whose inner pointer is
null, instead of aborting. -/
theorem alloc_null_not_checked :
    (∃ m2 r evs, pageRefNew boolRep byteRep (fun _ => 0) 0 true 1 = some (m2, r, evs) ∧
       r.inner = 0) ∧
    (∃ m2 r evs, libPageNew boolRep byteRep (fun _ => 0) 0 true 1 = some (m2, r, evs) ∧
       r.inner = 0) := by
  refine ⟨⟨writeBytes (writeBytes (fun _ => 0) 0 (boolRep.enc true)) 4 (encDesc ⟨1, 12⟩),
      ⟨0⟩, [Event.alloc 0 ⟨16, 4⟩], rfl, rfl⟩,
    ⟨writeBytes (writeBytes (fun _ => 0) 0 (boolRep.enc true)) 4 (encDesc ⟨1, 12⟩),
      ⟨0⟩, [Event.alloc 0 ⟨16, 4⟩], rfl, rfl⟩⟩

/-! ## Claim C7: layout overflow aborts before any allocation -/

/-- C7.  When the combined layout exceeds the representable range — here:
the header-plus-descriptor region alone pushes the data offset past
`u32::MAX`, the bound enforced by the 32-bit offsets — every construction
path aborts inside the layout computation: `with_capacity` returns no
layout, and `PageRef::new`, `Page::new` and the `lib.rs` `Page::new` all
abort without producing a page or an `Event.alloc` (the model emits
allocation events only after a successful layout computation, mirroring
the code, which computes the layout before calling `alloc`). -/
theorem overflow_aborts_before_alloc {H T : Type} (RH : TypeRep H) (RT : TypeRep T)
    (m : Mem) (addr : Nat) (h0 : H) (c : Nat)
    (hTa : 0 < RT.align)
    (hover : u32Max < alignTo RH.size 4 + 8) :
    withCapacity RH.rlayout RT.rlayout c = none ∧
    pageRefNew RH RT m addr h0 c = none ∧
    pageNew RH RT m addr h0 c = none ∧
    libPageNew RH RT m addr h0 c = none := by
  have hs : RH.rlayout.size = RH.size := rfl
  have hwc : withCapacity RH.rlayout RT.rlayout c = none := by
    cases hw : withCapacity RH.rlayout RT.rlayout c with
    | none => rfl
    | some pl =>
      exfalso
      obtain ⟨_, _, hdata, hdle, _, _, _⟩ := withCapacity_inv hw
      rw [hs] at hdata
      have h1 : alignTo RH.size 4 + 8 ≤
          alignTo (alignTo RH.size 4 + 8) (max RH.rlayout.align 4) :=
        le_alignTo _ (Nat.lt_of_lt_of_le (by norm_num) (Nat.le_max_right _ 4))
      have h2 : alignTo (alignTo RH.size 4 + 8) (max RH.rlayout.align 4) ≤
          alignTo (alignTo (alignTo RH.size 4 + 8) (max RH.rlayout.align 4))
            RT.rlayout.align :=
        le_alignTo _ hTa
      omega
  have hlib : libPageNew RH RT m addr h0 c = none := by
    unfold libPageNew
    cases hf : forCapacity RH.rlayout RT.rlayout c with
    | none => rfl
    | some plb =>
      obtain ⟨_, hdataB, _, _⟩ := forCapacity_inv hf
      rw [hs] at hdataB
      have h1 : alignTo RH.size 4 + 8 ≤
          alignTo (alignTo RH.size 4 + 8) RT.rlayout.align := le_alignTo _ hTa
      dsimp only
      rw [if_neg (by omega)]
  refine ⟨hwc, ?_, ?_, hlib⟩
  · unfold pageRefNew
    rw [hwc]
  · unfold pageNew pageRefNew
    rw [hwc]

/-- Witness for C7: a header of size `2^40` with one-byte items. -/
theorem overflow_aborts_before_alloc_witness :
    withCapacity hugeRep.rlayout byteRep.rlayout 1 = none ∧
    pageRefNew hugeRep byteRep (fun _ => 0) 1000 () 1 = none ∧
    pageNew hugeRep byteRep (fun _ => 0) 1000 () 1 = none ∧
    libPageNew hugeRep byteRep (fun _ => 0) 1000 () 1 = none :=
  overflow_aborts_before_alloc hugeRep byteRep (fun _ => 0) 1000 () 1
    (by norm_num [byteRep]) (by decide)

/-! ## Frame lemmas: header, descriptor and item slots do not overlap -/

theorem frameDesc_header {H : Type} (RH : TypeRep H) (m : Mem) (r : PageRefM) (h : H) :
    readDesc RH (writeHeader RH m r h) r = readDesc RH m r := by
  unfold readDesc writeHeader
  rw [readBytes_writeBytes_disjoint _ _ _ _ _ (Or.inr (by
    rw [RH.enc_length h]
    have h1 := le_alignTo RH.rlayout.size (show (0:Nat) < 4 by norm_num)
    have h2 : RH.rlayout.size = RH.size := rfl
    simp only [descOff]
    omega))]

theorem frameDesc_slot {H T : Type} (RH : TypeRep H) (RT : TypeRep T) (m : Mem)
    (r : PageRefM) (i : Nat) (v : T)
    (hd : descOff RH.rlayout + 8 ≤ (readDesc RH m r).data) :
    readDesc RH (writeSlot RH RT m r i v) r = readDesc RH m r := by
  unfold writeSlot readDesc
  rw [readBytes_writeBytes_disjoint _ _ _ _ _ (Or.inl (by
    unfold dataPtr
    omega))]

theorem frameHeader_slot {H T : Type} (RH : TypeRep H) (RT : TypeRep T) (m : Mem)
    (r : PageRefM) (i : Nat) (v : T)
    (hd : descOff RH.rlayout + 8 ≤ (readDesc RH m r).data) :
    readHeader RH (writeSlot RH RT m r i v) r = readHeader RH m r := by
  unfold writeSlot readHeader
  rw [readBytes_writeBytes_disjoint _ _ _ _ _ (Or.inl (by
    unfold dataPtr
    have h1 := le_alignTo RH.rlayout.size (show (0:Nat) < 4 by norm_num)
    have h2 : RH.rlayout.size = RH.size := rfl
    unfold descOff at hd
    omega))]

theorem readHeader_writeHeader {H : Type} (RH : TypeRep H) (m : Mem) (r : PageRefM)
    (h : H) : readHeader RH (writeHeader RH m r h) r = h := by
  unfold readHeader writeHeader
  have hlen : RH.size = (RH.enc h).length := (RH.enc_length h).symm
  rw [hlen, readBytes_writeBytes_same]
  exact RH.dec_enc h

theorem readSlot_writeSlot {H T : Type} (RH : TypeRep H) (RT : TypeRep T) (m : Mem)
    (r : PageRefM) (i : Nat) (v : T)
    (hd : descOff RH.rlayout + 8 ≤ (readDesc RH m r).data) :
    readSlot RH RT (writeSlot RH RT m r i v) r i = v := by
  unfold readSlot
  have hda : dataPtr RH (writeSlot RH RT m r i v) r = dataPtr RH m r := by
    unfold dataPtr
    rw [frameDesc_slot RH RT m r i v hd]
  rw [hda]
  unfold writeSlot
  have hlen : RT.size = (RT.enc v).length := (RT.enc_length v).symm
  rw [hlen, readBytes_writeBytes_same]
  exact RT.dec_enc v

theorem frameSlot_header {H T : Type} (RH : TypeRep H) (RT : TypeRep T) (m : Mem)
    (r : PageRefM) (i : Nat) (v : H)
    (hd : descOff RH.rlayout + 8 ≤ (readDesc RH m r).data) :
    readSlot RH RT (writeHeader RH m r v) r i = readSlot RH RT m r i := by
  unfold readSlot
  have hda : dataPtr RH (writeHeader RH m r v) r = dataPtr RH m r := by
    unfold dataPtr
    rw [frameDesc_header]
  rw [hda]
  unfold writeHeader
  rw [readBytes_writeBytes_disjoint _ _ _ _ _ (Or.inr (by
    rw [RH.enc_length v]
    unfold dataPtr
    have h1 := le_alignTo RH.rlayout.size (show (0:Nat) < 4 by norm_num)
    have h2 : RH.rlayout.size = RH.size := rfl
    unfold descOff at hd
    omega))]

/-- Any layout produced by the calculator places the data array strictly
after the header-plus-descriptor prefix. -/
theorem desc_data_lower_bound {Hl Tl : RLayout} {c : Nat} {pl : PageLayoutM}
    (hTa : 0 < Tl.align) (h : withCapacity Hl Tl c = some pl) :
    descOff Hl + 8 ≤ pl.desc.data := by
  obtain ⟨_, _, hdata, _, _, _, _⟩ := withCapacity_inv h
  have h1 : alignTo Hl.size 4 + 8 ≤ alignTo (alignTo Hl.size 4 + 8) (max Hl.align 4) :=
    le_alignTo _ (Nat.lt_of_lt_of_le (by norm_num) (Nat.le_max_right Hl.align 4))
  have h2 := le_alignTo (alignTo (alignTo Hl.size 4 + 8) (max Hl.align 4)) hTa
  unfold descOff
  omega

/-! ## Claim C8: header/slot writes do not interfere -/

/-- C8.  On a constructed page of capacity `c`, writing value `v` into
slot `i < c` and value `h1` into the header — in either order — leaves
both intact: the slot reads back `v`, `header()` reads back `h1`, and in
both orders the embedded descriptor (hence `capacity()`) is unchanged. -/
theorem header_slot_frame {H T : Type} (RH : TypeRep H) (RT : TypeRep T)
    (m m2 : Mem) (addr : Nat) (h0 h1 : H) (c i : Nat) (v : T) (p : PageM)
    (evs : List Event)
    (hc32 : c < 2 ^ 32) (hTa : 0 < RT.align) (hi : i < c)
    (hnew : pageNew RH RT m addr h0 c = some (m2, p, evs)) :
    (readSlot RH RT (writeHeader RH (writeSlot RH RT m2 p.ref i v) p.ref h1) p.ref i = v ∧
     readHeader RH (writeHeader RH (writeSlot RH RT m2 p.ref i v) p.ref h1) p.ref = h1 ∧
     readDesc RH (writeHeader RH (writeSlot RH RT m2 p.ref i v) p.ref h1) p.ref
       = readDesc RH m2 p.ref) ∧
    (readSlot RH RT (writeSlot RH RT (writeHeader RH m2 p.ref h1) p.ref i v) p.ref i = v ∧
     readHeader RH (writeSlot RH RT (writeHeader RH m2 p.ref h1) p.ref i v) p.ref = h1 ∧
     readDesc RH (writeSlot RH RT (writeHeader RH m2 p.ref h1) p.ref i v) p.ref
       = readDesc RH m2 p.ref) ∧
    refCapacity RH (writeHeader RH (writeSlot RH RT m2 p.ref i v) p.ref h1) p.ref = c := by
  obtain ⟨pl, hw, hm2, hp, _⟩ := pageNew_inv RH RT hnew
  obtain ⟨_, hit, _, hdle, _, _, _⟩ := withCapacity_inv hw
  subst hm2
  subst hp
  have hbound : descOff RH.rlayout + 8 ≤ pl.desc.data := desc_data_lower_bound hTa hw
  have hrd : readDesc RH
      (writeBytes (writeBytes m addr (RH.enc h0)) (addr + descOff RH.rlayout)
        (encDesc pl.desc)) (⟨⟨addr⟩⟩ : PageM).ref = pl.desc :=
    readDesc_init RH m addr h0 pl.desc (by omega)
      (by have : u32Max = 2 ^ 32 - 1 := rfl; omega)
  have hd : descOff RH.rlayout + 8 ≤
      (readDesc RH (writeBytes (writeBytes m addr (RH.enc h0))
        (addr + descOff RH.rlayout) (encDesc pl.desc)) (⟨⟨addr⟩⟩ : PageM).ref).data := by
    rw [hrd]
    exact hbound
  have hdslot : readDesc RH
      (writeSlot RH RT (writeBytes (writeBytes m addr (RH.enc h0))
        (addr + descOff RH.rlayout) (encDesc pl.desc)) (⟨⟨addr⟩⟩ : PageM).ref i v)
      (⟨⟨addr⟩⟩ : PageM).ref = pl.desc := by
    rw [frameDesc_slot RH RT _ _ i v hd, hrd]
  have hdA : descOff RH.rlayout + 8 ≤
      (readDesc RH (writeSlot RH RT (writeBytes (writeBytes m addr (RH.enc h0))
        (addr + descOff RH.rlayout) (encDesc pl.desc)) (⟨⟨addr⟩⟩ : PageM).ref i v)
        (⟨⟨addr⟩⟩ : PageM).ref).data := by
    rw [hdslot]
    exact hbound
  have hdhdr : readDesc RH
      (writeHeader RH (writeBytes (writeBytes m addr (RH.enc h0))
        (addr + descOff RH.rlayout) (encDesc pl.desc)) (⟨⟨addr⟩⟩ : PageM).ref h1)
      (⟨⟨addr⟩⟩ : PageM).ref = pl.desc := by
    rw [frameDesc_header, hrd]
  have hdB : descOff RH.rlayout + 8 ≤
      (readDesc RH (writeHeader RH (writeBytes (writeBytes m addr (RH.enc h0))
        (addr + descOff RH.rlayout) (encDesc pl.desc)) (⟨⟨addr⟩⟩ : PageM).ref h1)
        (⟨⟨addr⟩⟩ : PageM).ref).data := by
    rw [hdhdr]
    exact hbound
  refine ⟨⟨?_, ?_, ?_⟩, ⟨?_, ?_, ?_⟩, ?_⟩
  · rw [frameSlot_header RH RT _ _ i h1 hdA]
    exact readSlot_writeSlot RH RT _ _ i v hd
  · exact readHeader_writeHeader RH _ _ h1
  · rw [frameDesc_header, hdslot, hrd]
  · exact readSlot_writeSlot RH RT _ _ i v hdB
  · rw [frameHeader_slot RH RT _ _ i v hdB]
    exact readHeader_writeHeader RH _ _ h1
  · rw [frameDesc_slot RH RT _ _ i v hdB, hdhdr, hrd]
  · show (readDesc RH _ _).items = c
    rw [frameDesc_header, hdslot]
    exact hit

/-- Witness for C8: H = `bool`, T = `u8`, capacity 2, slot 1, value 42,
header rewritten from `true` to `false`. -/
theorem header_slot_frame_witness :
    (readSlot boolRep byteRep
       (writeHeader boolRep
         (writeSlot boolRep byteRep
           (writeBytes (writeBytes (fun _ => 0) 1000 (boolRep.enc true))
             (1000 + descOff boolRep.rlayout) (encDesc ⟨2, 12⟩))
           (⟨⟨1000⟩⟩ : PageM).ref 1 (42 : Fin 256))
         (⟨⟨1000⟩⟩ : PageM).ref false)
       (⟨⟨1000⟩⟩ : PageM).ref 1 = (42 : Fin 256) ∧
     readHeader boolRep
       (writeHeader boolRep
         (writeSlot boolRep byteRep
           (writeBytes (writeBytes (fun _ => 0) 1000 (boolRep.enc true))
             (1000 + descOff boolRep.rlayout) (encDesc ⟨2, 12⟩))
           (⟨⟨1000⟩⟩ : PageM).ref 1 (42 : Fin 256))
         (⟨⟨1000⟩⟩ : PageM).ref false)
       (⟨⟨1000⟩⟩ : PageM).ref = false ∧
     readDesc boolRep
       (writeHeader boolRep
         (writeSlot boolRep byteRep
           (writeBytes (writeBytes (fun _ => 0) 1000 (boolRep.enc true))
             (1000 + descOff boolRep.rlayout) (encDesc ⟨2, 12⟩))
           (⟨⟨1000⟩⟩ : PageM).ref 1 (42 : Fin 256))
         (⟨⟨1000⟩⟩ : PageM).ref false)
       (⟨⟨1000⟩⟩ : PageM).ref
       = readDesc boolRep
           (writeBytes (writeBytes (fun _ => 0) 1000 (boolRep.enc true))
             (1000 + descOff boolRep.rlayout) (encDesc ⟨2, 12⟩))
           (⟨⟨1000⟩⟩ : PageM).ref) ∧
    (readSlot boolRep byteRep
       (writeSlot boolRep byteRep
         (writeHeader boolRep
           (writeBytes (writeBytes (fun _ => 0) 1000 (boolRep.enc true))
             (1000 + descOff boolRep.rlayout) (encDesc ⟨2, 12⟩))
           (⟨⟨1000⟩⟩ : PageM).ref false)
         (⟨⟨1000⟩⟩ : PageM).ref 1 (42 : Fin 256))
       (⟨⟨1000⟩⟩ : PageM).ref 1 = (42 : Fin 256) ∧
     readHeader boolRep
       (writeSlot boolRep byteRep
         (writeHeader boolRep
           (writeBytes (writeBytes (fun _ => 0) 1000 (boolRep.enc true))
             (1000 + descOff boolRep.rlayout) (encDesc ⟨2, 12⟩))
           (⟨⟨1000⟩⟩ : PageM).ref false)
         (⟨⟨1000⟩⟩ : PageM).ref 1 (42 : Fin 256))
       (⟨⟨1000⟩⟩ : PageM).ref = false ∧
     readDesc boolRep
       (writeSlot boolRep byteRep
         (writeHeader boolRep
           (writeBytes (writeBytes (fun _ => 0) 1000 (boolRep.enc true))
             (1000 + descOff boolRep.rlayout) (encDesc ⟨2, 12⟩))
           (⟨⟨1000⟩⟩ : PageM).ref false)
         (⟨⟨1000⟩⟩ : PageM).ref 1 (42 : Fin 256))
       (⟨⟨1000⟩⟩ : PageM).ref
       = readDesc boolRep
           (writeBytes (writeBytes (fun _ => 0) 1000 (boolRep.enc true))
             (1000 + descOff boolRep.rlayout) (encDesc ⟨2, 12⟩))
           (⟨⟨1000⟩⟩ : PageM).ref) ∧
    refCapacity boolRep
      (writeHeader boolRep
        (writeSlot boolRep byteRep
          (writeBytes (writeBytes (fun _ => 0) 1000 (boolRep.enc true))
            (1000 + descOff boolRep.rlayout) (encDesc ⟨2, 12⟩))
          (⟨⟨1000⟩⟩ : PageM).ref 1 (42 : Fin 256))
        (⟨⟨1000⟩⟩ : PageM).ref false)
      (⟨⟨1000⟩⟩ : PageM).ref = 2 :=
  header_slot_frame boolRep byteRep (fun _ => 0)
    (writeBytes (writeBytes (fun _ => 0) 1000 (boolRep.enc true))
      (1000 + descOff boolRep.rlayout) (encDesc ⟨2, 12⟩))
    1000 true false 2 1 (42 : Fin 256) ⟨⟨1000⟩⟩ [Event.alloc 1000 ⟨16, 4⟩]
    (by norm_num) (by norm_num [byteRep]) (by norm_num) rfl

/-! ## Claim C9: reference equality is address identity -/

/-- C9.  `PartialEq` on raw page references compares exactly the held
allocation addresses: `r1 == r2` holds iff their inner pointers are
equal; a `Copy`/`Clone` of a reference compares equal to the original;
and references produced by two independent constructions — whose live
allocations have distinct addresses — compare unequal. -/
theorem pageref_equality {H T : Type} (RH : TypeRep H) (RT : TypeRep T)
    (r1 r2 : PageRefM) (m1 m2 m1b m2b : Mem) (a1 a2 : Nat) (h1 h2 : H) (c1 c2 : Nat)
    (r1c r2c : PageRefM) (evs1 evs2 : List Event)
    (hne : a1 ≠ a2)
    (hn1 : pageRefNew RH RT m1 a1 h1 c1 = some (m1b, r1c, evs1))
    (hn2 : pageRefNew RH RT m2 a2 h2 c2 = some (m2b, r2c, evs2)) :
    (PageRefM.beq r1 r2 = true ↔ r1.inner = r2.inner) ∧
    PageRefM.beq (PageRefM.clone r1) r1 = true ∧
    PageRefM.beq r1c r2c = false := by
  obtain ⟨pl1, _, _, hr1, _⟩ := pageRefNew_inv RH RT hn1
  obtain ⟨pl2, _, _, hr2, _⟩ := pageRefNew_inv RH RT hn2
  subst hr1
  subst hr2
  refine ⟨?_, ?_, ?_⟩
  · unfold PageRefM.beq
    exact beq_iff_eq
  · simp [PageRefM.beq, PageRefM.clone]
  · unfold PageRefM.beq
    exact beq_eq_false_iff_ne.mpr hne

/-- Witness for C9: addresses 1000 and 2000, plus two copies of the
reference ⟨5⟩. -/
theorem pageref_equality_witness :
    (PageRefM.beq ⟨5⟩ ⟨5⟩ = true ↔ (⟨5⟩ : PageRefM).inner = (⟨5⟩ : PageRefM).inner) ∧
    PageRefM.beq (PageRefM.clone ⟨5⟩) ⟨5⟩ = true ∧
    PageRefM.beq ⟨1000⟩ ⟨2000⟩ = false :=
  pageref_equality boolRep byteRep ⟨5⟩ ⟨5⟩ (fun _ => 0) (fun _ => 0)
    (writeBytes (writeBytes (fun _ => 0) 1000 (boolRep.enc true))
      (1000 + descOff boolRep.rlayout) (encDesc ⟨1, 12⟩))
    (writeBytes (writeBytes (fun _ => 0) 2000 (boolRep.enc true))
      (2000 + descOff boolRep.rlayout) (encDesc ⟨1, 12⟩))
    1000 2000 true true 1 1 ⟨1000⟩ ⟨2000⟩
    [Event.alloc 1000 ⟨16, 4⟩] [Event.alloc 2000 ⟨16, 4⟩]
    (by norm_num) rfl rfl

/-! ## Claim C10: the embedded descriptor is an invariant of the page -/

theorem readDesc_applyOps {H T : Type} (RH : TypeRep H) (RT : TypeRep T) (r : PageRefM)
    (ops : List (PageOp H T)) :
    ∀ m : Mem, descOff RH.rlayout + 8 ≤ (readDesc RH m r).data →
      readDesc RH (applyOps RH RT m r ops) r = readDesc RH m r := by
  induction ops with
  | nil =>
    intro m hd
    rfl
  | cons op t ih =>
    intro m hd
    have h1 : readDesc RH (applyOp RH RT m r op) r = readDesc RH m r := by
      cases op with
      | putHeader h => exact frameDesc_header RH m r h
      | putSlot i v => exact frameDesc_slot RH RT m r i v hd
    show readDesc RH (applyOps RH RT (applyOp RH RT m r op) r t) r = readDesc RH m r
    rw [ih (applyOp RH RT m r op) (by rw [h1]; exact hd), h1]

/-- C10.  For a page constructed with capacity `c`, the embedded
descriptor equals `{items = c, data = data-offset of the layout computed
for (H, T, c)}`; it is stored at byte offset `descOff RH.rlayout =
alignTo size(H) 4`, which depends only on the header type; and it is
unchanged by any sequence of header and in-bounds slot mutations, so
`capacity()` and `layout()` on the live page recover exactly the
construction-time capacity and layout from the bare pointer. -/
theorem descriptor_invariant {H T : Type} (RH : TypeRep H) (RT : TypeRep T)
    (m m2 : Mem) (addr : Nat) (h0 : H) (c : Nat) (p : PageM) (evs : List Event)
    (ops : List (PageOp H T))
    (hc32 : c < 2 ^ 32) (hTa : 0 < RT.align)
    (hops : ∀ op ∈ ops, opInBounds c op)
    (hnew : pageNew RH RT m addr h0 c = some (m2, p, evs)) :
    descOff RH.rlayout = alignTo RH.size 4 ∧
    ∃ pl, withCapacity RH.rlayout RT.rlayout c = some pl ∧
      readDesc RH (applyOps RH RT m2 p.ref ops) p.ref = pl.desc ∧
      pl.desc.items = c ∧
      refCapacity RH (applyOps RH RT m2 p.ref ops) p.ref = c ∧
      refLayout RH RT (applyOps RH RT m2 p.ref ops) p.ref = some pl := by
  obtain ⟨pl, hw, hm2, hp, _⟩ := pageNew_inv RH RT hnew
  obtain ⟨_, hit, _, hdle, _, _, _⟩ := withCapacity_inv hw
  subst hm2
  subst hp
  have hrd : readDesc RH
      (writeBytes (writeBytes m addr (RH.enc h0)) (addr + descOff RH.rlayout)
        (encDesc pl.desc)) (⟨⟨addr⟩⟩ : PageM).ref = pl.desc :=
    readDesc_init RH m addr h0 pl.desc (by omega)
      (by have : u32Max = 2 ^ 32 - 1 := rfl; omega)
  have hd : descOff RH.rlayout + 8 ≤
      (readDesc RH (writeBytes (writeBytes m addr (RH.enc h0))
        (addr + descOff RH.rlayout) (encDesc pl.desc)) (⟨⟨addr⟩⟩ : PageM).ref).data := by
    rw [hrd]
    exact desc_data_lower_bound hTa hw
  have hfinal : readDesc RH
      (applyOps RH RT (writeBytes (writeBytes m addr (RH.enc h0))
        (addr + descOff RH.rlayout) (encDesc pl.desc)) (⟨⟨addr⟩⟩ : PageM).ref ops)
      (⟨⟨addr⟩⟩ : PageM).ref = pl.desc := by
    rw [readDesc_applyOps RH RT _ ops _ hd, hrd]
  refine ⟨rfl, pl, hw, hfinal, hit, ?_, ?_⟩
  · show (readDesc RH _ _).items = c
    rw [hfinal]
    exact hit
  · unfold refLayout
    rw [hfinal, hit, hw]

/-- Witness for C10: H = `bool`, T = `u8`, capacity 2, mutations
`[putHeader false, putSlot 0 7, putSlot 1 9]`. -/
theorem descriptor_invariant_witness :
    descOff boolRep.rlayout = alignTo boolRep.size 4 ∧
    ∃ pl, withCapacity boolRep.rlayout byteRep.rlayout 2 = some pl ∧
      readDesc boolRep
        (applyOps boolRep byteRep
          (writeBytes (writeBytes (fun _ => 0) 1000 (boolRep.enc true))
            (1000 + descOff boolRep.rlayout) (encDesc ⟨2, 12⟩))
          (⟨⟨1000⟩⟩ : PageM).ref
          [PageOp.putHeader false, PageOp.putSlot 0 (7 : Fin 256),
           PageOp.putSlot 1 (9 : Fin 256)])
        (⟨⟨1000⟩⟩ : PageM).ref = pl.desc ∧
      pl.desc.items = 2 ∧
      refCapacity boolRep
        (applyOps boolRep byteRep
          (writeBytes (writeBytes (fun _ => 0) 1000 (boolRep.enc true))
            (1000 + descOff boolRep.rlayout) (encDesc ⟨2, 12⟩))
          (⟨⟨1000⟩⟩ : PageM).ref
          [PageOp.putHeader false, PageOp.putSlot 0 (7 : Fin 256),
           PageOp.putSlot 1 (9 : Fin 256)])
        (⟨⟨1000⟩⟩ : PageM).ref = 2 ∧
      refLayout boolRep byteRep
        (applyOps boolRep byteRep
          (writeBytes (writeBytes (fun _ => 0) 1000 (boolRep.enc true))
            (1000 + descOff boolRep.rlayout) (encDesc ⟨2, 12⟩))
          (⟨⟨1000⟩⟩ : PageM).ref
          [PageOp.putHeader false, PageOp.putSlot 0 (7 : Fin 256),
           PageOp.putSlot 1 (9 : Fin 256)])
        (⟨⟨1000⟩⟩ : PageM).ref = some pl :=
  descriptor_invariant boolRep byteRep (fun _ => 0)
    (writeBytes (writeBytes (fun _ => 0) 1000 (boolRep.enc true))
      (1000 + descOff boolRep.rlayout) (encDesc ⟨2, 12⟩))
    1000 true 2 ⟨⟨1000⟩⟩ [Event.alloc 1000 ⟨16, 4⟩]
    [PageOp.putHeader false, PageOp.putSlot 0 (7 : Fin 256), PageOp.putSlot 1 (9 : Fin 256)]
    (by norm_num) (by norm_num [byteRep])
    (by
      intro op hop
      simp only [List.mem_cons, List.not_mem_nil, or_false] at hop
      rcases hop with rfl | rfl | rfl
      · trivial
      · show (0 : Nat) < 2
        norm_num
      · show (1 : Nat) < 2
        norm_num)
    rfl
